/-
Verification of the pkger-g package manager core (src/pkger-g.py).

The Python source is shallowly embedded: each embedded definition mirrors one
function of the source, with external subprocesses abstracted as explicit
oracle parameters (a function from the invoked argv or package name to the
produced output, or none for a non-zero exit or exception).  Python strings
are modelled as Lean String (a list of characters); the Python str methods
used by the source (strip, rstrip, lower, capitalize, split, startswith,
replace, in) are re-implemented character by character below.
-/
import Mathlib

set_option maxRecDepth 8000

namespace PkgerG

/-! ### Python string primitives -/

/-- Whitespace set of Python str.strip and str.split (ASCII part). -/
def pyIsSpaceChar (c : Char) : Bool :=
  c = ' ' || c = '\t' || c = '\n' || c = '\r' || c = '\x0b' || c = '\x0c'

/-- Python str.strip on a character list: drop whitespace from both ends. -/
def pyStripL (l : List Char) : List Char :=
  ((l.dropWhile pyIsSpaceChar).reverse.dropWhile pyIsSpaceChar).reverse

/-- Python str.strip. -/
def pyStrip (s : String) : String := ⟨pyStripL s.data⟩

/-- Python str.rstrip on a character list, by structural recursion:
removes the longest all-whitespace suffix. -/
def pyRstripL : List Char → List Char
  | [] => []
  | c :: rest =>
    if (pyRstripL rest).isEmpty then (if pyIsSpaceChar c then [] else [c])
    else c :: pyRstripL rest

/-- Python str.rstrip. -/
def pyRstrip (s : String) : String := ⟨pyRstripL s.data⟩

/-- Python str.lower (ASCII). -/
def pyLower (s : String) : String := ⟨s.data.map Char.toLower⟩

/-- Python str.capitalize: first character uppercased, the rest lowercased. -/
def pyCapitalize (s : String) : String :=
  match s.data with
  | [] => ""
  | c :: rest => ⟨c.toUpper :: rest.map Char.toLower⟩

/-- listLeads p s is true when p is a leading segment of s
(the Python str.startswith test, on character lists). -/
def listLeads : List Char → List Char → Bool
  | [], _ => true
  | _ :: _, [] => false
  | a :: p, b :: s => a = b && listLeads p s

/-- Python str.startswith. -/
def pyStartsWith (pre s : String) : Bool := listLeads pre.data s.data

/-- listHasSub p s is true when p occurs as a contiguous segment of s
(the Python substring test p in s, on character lists). -/
def listHasSub (p : List Char) : List Char → Bool
  | [] => listLeads p []
  | c :: rest => listLeads p (c :: rest) || listHasSub p rest

/-- Python substring containment: pyContains s p models p in s. -/
def pyContains (s p : String) : Bool := listHasSub p.data s.data

/-- Number of (possibly overlapping) start positions at which p occurs in s.
For a pattern that cannot overlap itself (such as a single character) this
coincides with Python str.count. -/
def countOccurL (p : List Char) : List Char → Nat
  | [] => 0
  | c :: rest => (if listLeads p (c :: rest) then 1 else 0) + countOccurL p rest

/-- Occurrence count on strings. -/
def countOccurStr (p s : String) : Nat := countOccurL p.data s.data

/-- Split at the first occurrence of sep, or none when sep does not occur:
the two components of Python s.split(sep, 1) when it yields two parts. -/
def splitAtFirstL (sep : Char) : List Char → Option (List Char × List Char)
  | [] => none
  | c :: rest =>
    if c = sep then some ([], rest)
    else
      match splitAtFirstL sep rest with
      | none => none
      | some (a, b) => some (c :: a, b)

/-- Python s.split(sep, 1) restricted to the case of two parts. -/
def pySplitFirst (sep : Char) (s : String) : Option (String × String) :=
  (splitAtFirstL sep s.data).map (fun p => (⟨p.1⟩, ⟨p.2⟩))

/-- Python s.split(" ", 2): at most three parts, split at the first two
single-space characters (consecutive spaces yield empty fields). -/
def pySplitSpace2 (s : String) : List String :=
  match pySplitFirst ' ' s with
  | none => [s]
  | some (a, b) =>
    match pySplitFirst ' ' b with
    | none => [a, b]
    | some (c, d) => [a, c, d]

/-- Accumulator pass of Python s.split() with no argument:
words separated by runs of whitespace, no empty words. -/
def pyWordsAux : List Char → List Char → List (List Char)
  | acc, [] => if acc.isEmpty then [] else [acc.reverse]
  | acc, c :: rest =>
    if pyIsSpaceChar c then
      if acc.isEmpty then pyWordsAux [] rest else acc.reverse :: pyWordsAux [] rest
    else pyWordsAux (c :: acc) rest

/-- Python s.split() with no argument. -/
def pyWords (s : String) : List String := (pyWordsAux [] s.data).map (⟨·⟩)

/-- Python s.split(c) with an explicit separator: keeps empty fields. -/
def chSplitOn (sep : Char) : List Char → List (List Char)
  | [] => [[]]
  | c :: rest =>
    match chSplitOn sep rest with
    | [] => [[c]]
    | g :: gs => if c = sep then [] :: g :: gs else (c :: g) :: gs

/-- Python text.split(newline). -/
def pySplitLines (s : String) : List String := (chSplitOn '\n' s.data).map (⟨·⟩)

/-- Python pat-replacement text.replace(pat, rep), all occurrences,
left to right, non-overlapping. -/
def replaceAllL (pat rep : List Char) : List Char → List Char
  | [] => []
  | c :: rest =>
    if h : pat ≠ [] ∧ listLeads pat (c :: rest) = true then
      rep ++ replaceAllL pat rep ((c :: rest).drop pat.length)
    else
      c :: replaceAllL pat rep rest
termination_by l => l.length
decreasing_by
  · simp only [List.length_drop, List.length_cons]
    have : 0 < pat.length := List.length_pos.mpr h.1
    omega
  · simp only [List.length_cons]
    omega

/-- Python s.replace(pat, rep). -/
def pyReplace (s pat rep : String) : String := ⟨replaceAllL pat.data rep.data s.data⟩

/-- Python " ".join(command). -/
def joinSpace : List String → String
  | [] => ""
  | [s] => s
  | s :: rest => s ++ " " ++ joinSpace rest

/-- The single-quote character, written by code point. -/
def squote : String := ⟨[Char.ofNat 39]⟩

/-- beforeFirstSlash s is the part of s before its first slash
(Python s.split(slash)[0]). -/
def beforeFirstSlash (s : String) : String := ⟨s.data.takeWhile (· ≠ '/')⟩

/-- afterLastSlash s is the part of s after its last slash, or all of s when
there is none (Python s.split(slash)[-1]). -/
def afterLastSlash (s : String) : String := ⟨(s.data.reverse.takeWhile (· ≠ '/')).reverse⟩

/-- Whether s contains a slash (Python slash in s). -/
def hasSlash (s : String) : Bool := s.data.contains '/'

/-- Modelled from the wording of the claim and spec only (not from the
source), for comparison: the substring of a composite name after the FIRST
slash.  The source uses the part after the LAST slash instead. -/
def claimAfterFirstSlash (s : String) : String :=
  match pySplitFirst '/' s with
  | some p => p.2
  | none => s

/-! ### Search engine records and parsers (SearchWorker, lines 116-221) -/

/-- The uniform package record built by both search parsers: the Python dict
with keys name, pkg, version, description, repository, installed. -/
structure PackageRecord where
  name : String
  pkg : String
  version : String
  description : String
  repository : String
  installed : Bool
deriving DecidableEq

/-- Record constructor of SearchWorker._parse_pacman_search (lines 145-154):
repo is the part before the first slash, or unknown when there is no slash;
pkg is the part after the last slash; installed is the per-package
pacman -Q existence oracle applied to pkg. -/
def mkPacmanRecord (inst : String → Bool) (name version description : String) :
    PackageRecord :=
  let repo := if hasSlash name then beforeFirstSlash name else "unknown"
  let pkg := afterLastSlash name
  ⟨name, pkg, version, description, repo, inst pkg⟩

/-- Head test of one loop step of _parse_pacman_search (lines 135-140):
the stripped line must be non-empty (a stripped line never starts with a
space, so the startswith test of line 136 is subsumed) and must split into
two parts at its first space. -/
def pacmanHead (line : String) : Option (String × String) :=
  if pyStrip line = "" then none else pySplitFirst ' ' (pyStrip line)

/-- SearchWorker._parse_pacman_search (lines 130-156), over the list of
lines of the pacman -Ss output.  When a record line is followed by a line
starting with four spaces, that line is consumed as the description and
skipped (the i += 1 of line 144). -/
def parsePacmanSearch (inst : String → Bool) : List String → List PackageRecord
  | [] => []
  | [line] =>
    match pacmanHead line with
    | none => []
    | some (nm, ver) => [mkPacmanRecord inst nm ver ""]
  | line :: next :: rest2 =>
    match pacmanHead line with
    | none => parsePacmanSearch inst (next :: rest2)
    | some (nm, ver) =>
      if pyStartsWith "    " next then
        mkPacmanRecord inst nm ver (pyStrip next) :: parsePacmanSearch inst rest2
      else
        mkPacmanRecord inst nm ver "" :: parsePacmanSearch inst (next :: rest2)

/-- One line of SearchWorker._parse_aur_search (lines 161-175): the line is
kept when its stripped form is non-empty and it does not start with a space;
it is then split into at most three fields at the first two spaces. -/
def aurLine (inst : String → Bool) (line : String) : Option PackageRecord :=
  if pyStrip line ≠ "" ∧ pyStartsWith " " line = false then
    match pySplitSpace2 line with
    | p0 :: p1 :: rest =>
      some ⟨(if p0 = "aur/" then p1 else p0),
            (if p0 = "aur/" then p1 else p0),
            (if p0 = "aur/" then p1 else ""),
            (match rest with | [] => "" | d :: _ => d),
            "aur",
            inst (if p0 = "aur/" then p1 else p0)⟩
    | _ => none
  else none

/-- SearchWorker._parse_aur_search (lines 158-176). -/
def parseAurSearch (inst : String → Bool) (lines : List String) : List PackageRecord :=
  lines.filterMap (aurLine inst)

/-! ### Update scanner (PKGERWindow.load_updates_data, lines 1170-1192) -/

/-- One pending update, the dict built at line 1187. -/
structure UpdateItem where
  name : String
  fromVer : String
  toVer : String
deriving DecidableEq

/-- One line of the pacman -Qu parse loop (lines 1178-1187): whitespace
split; an item is produced exactly when there are at least four fields and
field 2 is the arrow token. -/
def parseUpdateLine (line : String) : Option UpdateItem :=
  match pyWords line with
  | p0 :: p1 :: p2 :: p3 :: _ => if p2 = "->" then some ⟨p0, p1, p3⟩ else none
  | _ => none

/-- The parse loop of load_updates_data over all output lines.  Lines whose
stripped form is empty are skipped at line 1179; such lines have no words,
so the skip is subsumed by parseUpdateLine. -/
def parseUpdates (lines : List String) : List UpdateItem :=
  lines.filterMap parseUpdateLine

/-- load_updates_data end to end: when the pacman -Qu query fails (any
exception), the item list stays empty (lines 1175, 1188-1190). -/
def scanUpdates (queryOutput : Option (List String)) : List UpdateItem :=
  match queryOutput with
  | none => []
  | some lines => parseUpdates lines

/-! ### Command runner (run_command_stream, lines 35-71) -/

/-- The shell string built at line 41 of the source. -/
def sudoWrapString (pw : String) (command : List String) : String :=
  "echo " ++ squote ++ pw ++ squote ++ " | sudo -S " ++ joinSpace command

/-- The argv actually spawned by run_command_stream (lines 40-58): when a
credential is supplied (non-None and non-empty, the Python truthiness test
of line 40) and the command does not already start with sudo, the command
is wrapped into a bash invocation piping the credential to sudo -S;
otherwise the command is spawned unchanged. -/
def buildCommand (command : List String) : Option String → List String
  | none => command
  | some pw =>
    if pw ≠ "" ∧ (command = [] ∨ command.head? ≠ some "sudo") then
      ["bash", "-lc", sudoWrapString pw command]
    else command

/-- A spawned process is abstracted as an oracle from the spawned argv to
either an exception message, or the produced stdout lines (stderr merged)
together with the exit code.  The non-empty lines yielded by the readline
loop are modelled directly as the line list. -/
abbrev ProcessOracle := List String → Except String (List String × Nat)

/-- run_command_stream (lines 35-71): the pair of (every line passed to
on_output, in order) and the returned exit code.  Each streamed line is
rstripped at line 65; empty reads are skipped by the test at line 64.  Any
exception produces the single synthetic line of line 70 and exit code 1. -/
def runCommandStream (spawn : ProcessOracle) (command : List String)
    (password : Option String) : List String × Nat :=
  match spawn (buildCommand command password) with
  | Except.ok (outLines, code) => ((outLines.filter (fun l => l ≠ "")).map pyRstrip, code)
  | Except.error msg => (["ERROR: " ++ msg], 1)

/-! ### Operation executor worker (PackageOpWorker, lines 86-113) -/

/-- PackageOpWorker._progress_hint (lines 94-103): the coarse progress
value scheduled for one raw output line, chosen by the if/elif chain on the
lowercased line; at most one hint fires per line. -/
def progressHint (line : String) : Option Nat :=
  if pyContains (pyLower line) "downloading" then some 50
  else if pyContains (pyLower line) "installing" then some 75
  else if pyContains (pyLower line) "removing" then some 60
  else if pyContains (pyLower line) "loading" then some 40
  else none

/-- One UI callback event scheduled by the worker. -/
inductive OpEvent where
  | status (msg : String)
  | progress (value : Nat)
  | output (line : String)
  | done (success : Bool) (msg : String)
deriving DecidableEq

/-- The events produced for one streamed raw line inside run_command_stream
(lines 64-67): the rstripped line to on_output, then the progress hint for
the raw line, when one fires. -/
def lineEvents (line : String) : List OpEvent :=
  OpEvent.output (pyRstrip line) ::
    (match progressHint line with
     | some v => [OpEvent.progress v]
     | none => [])

/-- run_command_stream as seen through both callbacks of PackageOpWorker:
the interleaved output/progress events, and the exit code. -/
def runCommandStreamEvents (spawn : ProcessOracle) (command : List String)
    (password : Option String) : List OpEvent × Nat :=
  match spawn (buildCommand command password) with
  | Except.ok (outLines, code) =>
    ((outLines.filter (fun l => l ≠ "")).flatMap lineEvents, code)
  | Except.error msg => ([OpEvent.output ("ERROR: " ++ msg)], 1)

/-- The single terminal done event of PackageOpWorker.run (lines 110-113). -/
def doneEvent (operation : String) (ret : Nat) : OpEvent :=
  if ret = 0 then
    OpEvent.done true (pyCapitalize operation ++ " completed successfully!")
  else
    OpEvent.done false (pyCapitalize operation ++ " failed with code " ++ toString ret)

/-- PackageOpWorker.run (lines 105-113): the full ordered trace of UI
callback events scheduled by one worker run. -/
def packageOpWorkerRun (spawn : ProcessOracle) (operation : String)
    (command : List String) (password : Option String) : List OpEvent :=
  OpEvent.status ("Starting " ++ operation ++ "...") :: OpEvent.progress 10 ::
    (runCommandStreamEvents spawn command password).1 ++
    [OpEvent.progress 100,
     doneEvent operation (runCommandStreamEvents spawn command password).2]

/-- The progress values of a trace, in order. -/
def progressValues (events : List OpEvent) : List Nat :=
  events.filterMap fun e =>
    match e with
    | OpEvent.progress v => some v
    | _ => none

/-- The done callbacks of a trace, in order. -/
def doneEvents (events : List OpEvent) : List (Bool × String) :=
  events.filterMap fun e =>
    match e with
    | OpEvent.done ok msg => some (ok, msg)
    | _ => none

/-- Whether a value list is monotonically non-decreasing. -/
def nondecreasing : List Nat → Bool
  | [] => true
  | [_] => true
  | a :: b :: rest => decide (a ≤ b) && nondecreasing (b :: rest)

/-! ### Details resolver and cache (PKGERWindow._get_package_details,
lines 758-809, and _parse_key_values, lines 811-830) -/

/-- The info dict of _get_package_details (lines 759-770). -/
structure PackageInfo where
  name : String
  version : String
  repository : String
  installed : String
  installedSize : String
  license : String
  url : String
  description : String
  depends : List String
  requiredBy : List String
deriving DecidableEq

/-- The initial info dict (lines 759-770). -/
def defaultInfo (name repo : String) : PackageInfo :=
  ⟨name, "-", repo, "No", "-", "-", "-", "-", [], []⟩

/-- One line of _parse_key_values (lines 812-830): split at the first
colon, strip both sides, dispatch on the lowercased key. -/
def applyKeyValue (info : PackageInfo) (line : String) : PackageInfo :=
  match pySplitFirst ':' line with
  | none => info
  | some (k, v) =>
    let key := pyLower (pyStrip k)
    let val := pyStrip v
    if key = "version" then { info with version := val }
    else if key = "repository" ∨ key = "repo" then { info with repository := val }
    else if key = "installed size" then { info with installedSize := val }
    else if key = "license" then { info with license := val }
    else if key = "url" then { info with url := val }
    else if key = "description" then { info with description := val }
    else if key = "depends on" ∨ key = "depends" then
      { info with depends := pyWords (pyReplace val "None" "") }
    else info

/-- _parse_key_values (lines 811-830) over a whole key:value text block. -/
def parseKeyValues (text : String) (info : PackageInfo) : PackageInfo :=
  (pySplitLines text).foldl applyKeyValue info

/-- The stripped non-blank lines of a pactree output (lines 793, 800). -/
def nonBlankLines (out : String) : List String :=
  ((pySplitLines out).map pyStrip).filter (· ≠ "")

/-- The external queries issued by _get_package_details, as oracles: some
output means the query returned exit code 0, none means a non-zero exit
code or an exception (timeout, spawn failure). -/
structure DetailsEnv where
  qi : String → Option String
  siAur : String → Option String
  siRepo : String → Option String
  pactree : String → Option String
  pactreeRev : String → Option String

/-- _get_package_details on a cache miss (lines 775-803): the computed info
and the number of external processes spawned.  pacman -Qi is always run;
on its failure the source-specific -Si query is run; with_deps adds the two
pactree runs. -/
def computeDetails (env : DetailsEnv) (name repo : String) (withDeps : Bool) :
    PackageInfo × Nat :=
  let base := defaultInfo name repo
  let first :=
    match env.qi name with
    | some out => (parseKeyValues out { base with installed := "Yes" }, 1)
    | none =>
      match (if repo = "aur" then env.siAur name else env.siRepo name) with
      | some out => (parseKeyValues out base, 2)
      | none => (base, 2)
  if withDeps then
    let info2 :=
      match env.pactree name with
      | some out => { first.1 with depends := (nonBlankLines out).take 50 }
      | none => first.1
    let info3 :=
      match env.pactreeRev name with
      | some out => { info2 with requiredBy := (nonBlankLines out).take 50 }
      | none => info2
    (info3, first.2 + 2)
  else first

/-- The details cache: a Python dict modelled as an association list in
insertion order (a fresh key is appended at the end). -/
abbrev DetailsCache := List (String × PackageInfo)

/-- The cache key of line 772. -/
def cacheKey (name repo : String) (withDeps : Bool) : String :=
  repo ++ ":" ++ name ++ ":" ++ (if withDeps then "deps" else "nodeps")

/-- Dict lookup. -/
def cacheFind : DetailsCache → String → Option PackageInfo
  | [], _ => none
  | (k, v) :: rest, key => if k = key then some v else cacheFind rest key

/-- The cull of lines 806-808: when the dict holds more than 200 entries,
pop the first 50 keys in insertion order. -/
def evictIfNeeded (c : DetailsCache) : DetailsCache :=
  if 200 < c.length then c.drop 50 else c

/-- _get_package_details (lines 758-809): result info, cache after the
call, and the number of external processes spawned.  A cache hit (lines
773-774) returns at once and spawns nothing; a miss computes, inserts at
line 804, then culls (lines 806-808). -/
def getPackageDetails (env : DetailsEnv) (c : DetailsCache) (name repo : String)
    (withDeps : Bool) : PackageInfo × DetailsCache × Nat :=
  match cacheFind c (cacheKey name repo withDeps) with
  | some info => (info, c, 0)
  | none =>
    ((computeDetails env name repo withDeps).1,
     evictIfNeeded (c ++ [(cacheKey name repo withDeps,
       (computeDetails env name repo withDeps).1)]),
     (computeDetails env name repo withDeps).2)

/-- Iterate getPackageDetails over a sequence of (name, repo, withDeps)
requests, threading the cache. -/
def runDetailsCalls (env : DetailsEnv) : List (String × String × Bool) → DetailsCache → DetailsCache
  | [], c => c
  | (n, r, w) :: rest, c => runDetailsCalls env rest (getPackageDetails env c n r w).2.1

/-! ### Single-operation gate (PKGERWindow.run_package_operation, lines
1116-1136, and on_operation_finished, lines 1138-1148)

The UI-facing state is reduced to the fields the gate touches.  All calls
into run_package_operation happen on the single-threaded GTK main context;
a finish event models the worker thread terminating together with the
delivery of its done callback, which is the last action the worker
schedules.  activeWorkers counts started-but-not-finished workers. -/

structure OpSysState where
  activeWorkers : Nat
  outputBuffer : List String
  progressValue : Nat
  statusText : String
  warnings : List String
deriving DecidableEq

/-- The state at window construction (lines 234, 265). -/
def initOpState : OpSysState := ⟨0, [], 0, "Ready", []⟩

/-- run_package_operation (lines 1116-1136): when a worker is alive the
request is rejected with the warning dialog of line 1118 and nothing else
changes; otherwise the output buffer is cleared, progress reset, status set
and a new worker started.  Returns the new state and whether the request
was accepted. -/
def runPackageOperation (s : OpSysState) (label : String) : OpSysState × Bool :=
  if 0 < s.activeWorkers then
    ({ s with warnings := s.warnings ++ ["Operation in Progress"] }, false)
  else
    ({ s with outputBuffer := [],
              progressValue := 0,
              statusText := "Starting " ++ label ++ "...",
              activeWorkers := s.activeWorkers + 1 }, true)

/-- Worker termination plus its done callback on_operation_finished
(lines 1138-1148): progress reset to 0, status back to Ready. -/
def onOperationFinished (s : OpSysState) : OpSysState :=
  { s with activeWorkers := s.activeWorkers - 1,
           progressValue := 0,
           statusText := "Ready" }

/-- The transition relation of the gate. -/
inductive OpStep : OpSysState → OpSysState → Prop
  | request (s : OpSysState) (label : String) : OpStep s (runPackageOperation s label).1
  | finish (s : OpSysState) (h : 0 < s.activeWorkers) : OpStep s (onOperationFinished s)

/-- States reachable from window construction. -/
def OpReachable (s : OpSysState) : Prop :=
  Relation.ReflTransGen OpStep initOpState s

/-! ## Helper lemmas -/

theorem listLeads_trans {p t s : List Char} (h1 : listLeads p t = true)
    (h2 : listLeads t s = true) : listLeads p s = true := by
  induction p generalizing t s with
  | nil => rfl
  | cons a p ih =>
    cases t with
    | nil => simp [listLeads] at h1
    | cons b t =>
      cases s with
      | nil => simp [listLeads] at h2
      | cons c s =>
        simp only [listLeads, Bool.and_eq_true, decide_eq_true_eq] at h1 h2 ⊢
        exact ⟨h1.1.trans h2.1, ih h1.2 h2.2⟩

theorem listHasSub_nil_left (s : List Char) : listHasSub [] s = true := by
  cases s <;> simp [listHasSub, listLeads]

theorem listHasSub_of_leads {p t s : List Char} (hts : listLeads t s = true)
    (hp : listHasSub p t = true) : listHasSub p s = true := by
  induction t generalizing s with
  | nil =>
    cases p with
    | nil => exact listHasSub_nil_left s
    | cons a q => simp [listHasSub, listLeads] at hp
  | cons b t ih =>
    cases s with
    | nil => simp [listLeads] at hts
    | cons c s =>
      simp only [listLeads, Bool.and_eq_true, decide_eq_true_eq] at hts
      simp only [listHasSub, Bool.or_eq_true] at hp ⊢
      rcases hp with hp | hp
      · left
        refine listLeads_trans hp ?_
        simp only [listLeads, Bool.and_eq_true, decide_eq_true_eq]
        exact hts
      · right
        exact ih hts.2 hp

theorem pyRstripL_leads (l : List Char) : listLeads (pyRstripL l) l = true := by
  induction l with
  | nil => rfl
  | cons c rest ih =>
    simp only [pyRstripL]
    by_cases h : (pyRstripL rest).isEmpty
    · rw [if_pos h]
      by_cases hs : pyIsSpaceChar c
      · rw [if_pos hs]; rfl
      · rw [if_neg hs]
        simp [listLeads]
    · rw [if_neg h]
      simp [listLeads, ih]

theorem pyContains_rstrip {s p : String} (h : pyContains (pyRstrip s) p = true) :
    pyContains s p = true :=
  listHasSub_of_leads (pyRstripL_leads s.data) h

theorem listLeads_map (f : Char → Char) {p s : List Char}
    (h : listLeads p s = true) : listLeads (p.map f) (s.map f) = true := by
  induction p generalizing s with
  | nil => rfl
  | cons a p ih =>
    cases s with
    | nil => simp [listLeads] at h
    | cons b s =>
      simp only [listLeads, Bool.and_eq_true, decide_eq_true_eq] at h
      simp only [List.map_cons, listLeads, Bool.and_eq_true, decide_eq_true_eq]
      exact ⟨congrArg f h.1, ih h.2⟩

theorem listHasSub_map (f : Char → Char) {p s : List Char}
    (h : listHasSub p s = true) : listHasSub (p.map f) (s.map f) = true := by
  induction s with
  | nil =>
    cases p with
    | nil => rfl
    | cons a q => simp [listHasSub, listLeads] at h
  | cons c s ih =>
    simp only [listHasSub, Bool.or_eq_true] at h
    simp only [List.map_cons, listHasSub, Bool.or_eq_true]
    rcases h with h | h
    · left
      have := listLeads_map f h
      simpa using this
    · right
      exact ih h

/-- The only values the hint classifier can produce. -/
theorem progressHint_values {l : String} {v : Nat} (h : progressHint l = some v) :
    v = 50 ∨ v = 75 ∨ v = 60 ∨ v = 40 := by
  unfold progressHint at h
  split_ifs at h <;> simp_all

theorem doneEvents_append (a b : List OpEvent) :
    doneEvents (a ++ b) = doneEvents a ++ doneEvents b := by
  simp [doneEvents]

theorem doneEvents_cons_status (m : String) (l : List OpEvent) :
    doneEvents (OpEvent.status m :: l) = doneEvents l := by
  simp [doneEvents]

theorem doneEvents_cons_progress (v : Nat) (l : List OpEvent) :
    doneEvents (OpEvent.progress v :: l) = doneEvents l := by
  simp [doneEvents]

theorem doneEvents_cons_done (ok : Bool) (msg : String) (l : List OpEvent) :
    doneEvents (OpEvent.done ok msg :: l) = (ok, msg) :: doneEvents l := by
  simp [doneEvents]

theorem progressValues_cons_status (m : String) (l : List OpEvent) :
    progressValues (OpEvent.status m :: l) = progressValues l := by
  simp [progressValues]

theorem progressValues_cons_progress (v : Nat) (l : List OpEvent) :
    progressValues (OpEvent.progress v :: l) = v :: progressValues l := by
  simp [progressValues]

theorem progressValues_tail_done (op : String) (ret : Nat) :
    progressValues [OpEvent.progress 100, doneEvent op ret] = [100] := by
  by_cases h : ret = 0 <;> simp [doneEvent, h, progressValues]

theorem doneEvents_lineEvents (l : String) : doneEvents (lineEvents l) = [] := by
  cases h : progressHint l <;> simp [lineEvents, doneEvents, h]

theorem doneEvents_flat (ls : List String) :
    doneEvents (ls.flatMap lineEvents) = [] := by
  induction ls with
  | nil => rfl
  | cons l rest ih =>
    simp only [List.flatMap_cons, doneEvents_append, doneEvents_lineEvents, ih]
    rfl

theorem doneEvents_stream (spawn : ProcessOracle) (cmd : List String)
    (pw : Option String) : doneEvents (runCommandStreamEvents spawn cmd pw).1 = [] := by
  unfold runCommandStreamEvents
  cases h : spawn (buildCommand cmd pw) with
  | ok r => simp [doneEvents_flat]
  | error msg => simp [doneEvents]

theorem progressValues_append (a b : List OpEvent) :
    progressValues (a ++ b) = progressValues a ++ progressValues b := by
  simp [progressValues]

theorem progressValues_lineEvents {l : String} {v : Nat}
    (h : v ∈ progressValues (lineEvents l)) : progressHint l = some v := by
  cases hh : progressHint l <;> simp [lineEvents, progressValues, hh] at h <;> simp [h]

theorem progressValues_flat {ls : List String} {v : Nat}
    (h : v ∈ progressValues (ls.flatMap lineEvents)) :
    ∃ l ∈ ls, progressHint l = some v := by
  induction ls with
  | nil => simp [progressValues] at h
  | cons l rest ih =>
    simp only [List.flatMap_cons, progressValues_append, List.mem_append] at h
    rcases h with h | h
    · exact ⟨l, List.mem_cons_self l rest, progressValues_lineEvents h⟩
    · obtain ⟨l2, hm, hv⟩ := ih h
      exact ⟨l2, List.mem_cons_of_mem l hm, hv⟩

theorem progressValues_stream {spawn : ProcessOracle} {cmd : List String}
    {pw : Option String} {v : Nat}
    (h : v ∈ progressValues (runCommandStreamEvents spawn cmd pw).1) :
    v = 50 ∨ v = 75 ∨ v = 60 ∨ v = 40 := by
  unfold runCommandStreamEvents at h
  cases hs : spawn (buildCommand cmd pw) with
  | ok r =>
    rw [hs] at h
    obtain ⟨l, _, hv⟩ := progressValues_flat h
    exact progressHint_values hv
  | error msg =>
    rw [hs] at h
    simp [progressValues] at h

theorem cacheFind_eq_none_iff {c : DetailsCache} {k : String} :
    cacheFind c k = none ↔ ∀ p ∈ c, p.1 ≠ k := by
  induction c with
  | nil => simp [cacheFind]
  | cons p rest ih =>
    obtain ⟨k2, v⟩ := p
    by_cases h : k2 = k
    · subst h
      simp [cacheFind]
    · simp [cacheFind, h, ih]

theorem cacheFind_append_self {c : DetailsCache} {k : String} (v : PackageInfo)
    (h : cacheFind c k = none) : cacheFind (c ++ [(k, v)]) k = some v := by
  induction c with
  | nil => simp [cacheFind]
  | cons p rest ih =>
    obtain ⟨k2, w⟩ := p
    simp only [cacheFind] at h
    by_cases hk : k2 = k
    · simp [hk] at h
    · simp only [if_neg hk] at h
      simp only [List.cons_append, cacheFind, if_neg hk]
      exact ih h

theorem cacheFind_drop_none {c : DetailsCache} {k : String} (n : Nat)
    (h : cacheFind c k = none) : cacheFind (c.drop n) k = none := by
  rw [cacheFind_eq_none_iff] at h ⊢
  intro p hp
  exact h p (List.drop_subset n c hp)

theorem cacheFind_evict_insert {c : DetailsCache} {k : String} {v : PackageInfo}
    (h : cacheFind c k = none) :
    cacheFind (evictIfNeeded (c ++ [(k, v)])) k = some v := by
  unfold evictIfNeeded
  by_cases hlen : 200 < (c ++ [(k, v)]).length
  · rw [if_pos hlen]
    have hc : 50 ≤ c.length := by
      simp only [List.length_append, List.length_cons, List.length_nil] at hlen
      omega
    rw [List.drop_append_of_le_length hc]
    exact cacheFind_append_self v (cacheFind_drop_none 50 h)
  · rw [if_neg hlen]
    exact cacheFind_append_self v h

theorem getPackageDetails_hit {env : DetailsEnv} {c : DetailsCache}
    {name repo : String} {wd : Bool} {v : PackageInfo}
    (h : cacheFind c (cacheKey name repo wd) = some v) :
    getPackageDetails env c name repo wd = (v, c, 0) := by
  unfold getPackageDetails
  rw [h]

theorem getPackageDetails_miss {env : DetailsEnv} {c : DetailsCache}
    {name repo : String} {wd : Bool}
    (h : cacheFind c (cacheKey name repo wd) = none) :
    getPackageDetails env c name repo wd =
      ((computeDetails env name repo wd).1,
       evictIfNeeded (c ++ [(cacheKey name repo wd,
         (computeDetails env name repo wd).1)]),
       (computeDetails env name repo wd).2) := by
  unfold getPackageDetails
  rw [h]

/-! ## Claim theorems -/

/-- Claim C10 (confirmed): the progress-hint classifier emits at most one
hint per input line (it returns an Option), chosen by the fixed priority
downloading (50) over installing (75) over removing (60) over loading (40)
on the lower-cased line; every line containing downloading reports 50 and
never 40, even though loading occurs in downloading as a substring. -/
theorem progressHint_priority :
    (∀ line, pyContains (pyLower line) "downloading" = true →
      progressHint line = some 50) ∧
    (∀ line, pyContains line "downloading" = true →
      progressHint line = some 50) ∧
    (∀ line, pyContains (pyLower line) "downloading" = false →
      pyContains (pyLower line) "installing" = true →
      progressHint line = some 75) ∧
    (∀ line, pyContains (pyLower line) "downloading" = false →
      pyContains (pyLower line) "installing" = false →
      pyContains (pyLower line) "removing" = true →
      progressHint line = some 60) ∧
    (∀ line, pyContains (pyLower line) "downloading" = false →
      pyContains (pyLower line) "installing" = false →
      pyContains (pyLower line) "removing" = false →
      pyContains (pyLower line) "loading" = true →
      progressHint line = some 40) ∧
    (∀ line, pyContains (pyLower line) "downloading" = false →
      pyContains (pyLower line) "installing" = false →
      pyContains (pyLower line) "removing" = false →
      pyContains (pyLower line) "loading" = false →
      progressHint line = none) ∧
    pyContains "downloading" "loading" = true := by
  refine ⟨?_, ?_, ?_, ?_, ?_, ?_, by decide⟩
  · intro line h
    simp [progressHint, h]
  · intro line h
    have hm := listHasSub_map Char.toLower (p := "downloading".data) (s := line.data) h
    have he : ("downloading".data.map Char.toLower) = "downloading".data := by decide
    rw [he] at hm
    have hl : pyContains (pyLower line) "downloading" = true := hm
    simp [progressHint, hl]
  · intro line h1 h2
    simp [progressHint, h1, h2]
  · intro line h1 h2 h3
    simp [progressHint, h1, h2, h3]
  · intro line h1 h2 h3 h4
    simp [progressHint, h1, h2, h3, h4]
  · intro line h1 h2 h3 h4
    simp [progressHint, h1, h2, h3, h4]

/-- Witness for C10 at concrete lines. -/
theorem progressHint_priority_witness :
    progressHint "Downloading required keys..." = some 50 ∧
    progressHint "resuming downloading now" = some 50 ∧
    progressHint " loading packages files" = some 40 :=
  ⟨progressHint_priority.1 "Downloading required keys..." (by decide),
   progressHint_priority.2.1 "resuming downloading now" (by decide),
   progressHint_priority.2.2.2.2.1 " loading packages files"
     (by decide) (by decide) (by decide) (by decide)⟩

/-- Claim C8 counterexample: the line with token arrow at position 2 but
only three whitespace-separated fields produces no item, refuting the
stated production condition (an item exactly when the token at position 2
is the arrow). -/
theorem parseUpdates_arrow_counterexample :
    (pyWords "a b ->")[2]? = some "->" ∧ parseUpdates ["a b ->"] = [] := by
  decide

/-- Claim C8 (corrected): an UpdateItem with name field 0, fromVer field 1,
toVer field 3 is produced exactly when the whitespace-split line has at
least four fields AND the token at position 2 is the arrow; malformed
lines are silently ignored; on query failure the scan yields an empty
list; the two scenario lines behave as stated. -/
theorem parseUpdates_spec :
    (∀ line, (parseUpdateLine line).isSome = true ↔
      (4 ≤ (pyWords line).length ∧ (pyWords line)[2]? = some "->")) ∧
    (∀ line p0 p1 p3 rest, pyWords line = p0 :: p1 :: "->" :: p3 :: rest →
      parseUpdateLine line = some ⟨p0, p1, p3⟩) ∧
    parseUpdates ["firefox 120.0-1 -> 121.0-1"] =
      [⟨"firefox", "120.0-1", "121.0-1"⟩] ∧
    parseUpdates ["malformed line"] = [] ∧
    scanUpdates none = [] := by
  refine ⟨?_, ?_, by decide, by decide, rfl⟩
  · intro line
    rcases h : pyWords line with _ | ⟨p0, _ | ⟨p1, _ | ⟨p2, _ | ⟨p3, rest⟩⟩⟩⟩ <;>
      simp [parseUpdateLine, h]
  · intro line p0 p1 p3 rest h
    simp [parseUpdateLine, h]

/-- Witness for C8 at a concrete well-formed line. -/
theorem parseUpdates_spec_witness :
    parseUpdateLine "firefox 120.0-1 -> 121.0-1" =
      some ⟨"firefox", "120.0-1", "121.0-1"⟩ :=
  parseUpdates_spec.2.1 "firefox 120.0-1 -> 121.0-1" "firefox" "120.0-1" "121.0-1" []
    (by decide)

/-- Claim C7 counterexample: on a line whose first field is the literal
token aur-slash, the record version is field 1 (equal to the name), not
the empty string the claim asserts. -/
theorem parseAurSearch_version_counterexample :
    (parseAurSearch (fun _ => false) ["aur/ vim great editor"]).map
      (fun r => (r.name, r.version)) = [("vim", "vim")] ∧
    ("vim" : String) ≠ "" := by
  decide

/-- Claim C7 (corrected): each line that is non-empty after stripping and
does not start with a space is split into at most 3 fields at its first
two single spaces; if field 0 equals the literal token aur-slash, the
record name AND version are both field 1; otherwise the name is field 0
and the version is empty; the description is field 2 when present; the
repository of every produced record is the aur tag and pkg equals name. -/
theorem parseAurSearch_spec :
    (∀ inst lines r, r ∈ parseAurSearch inst lines →
      r.repository = "aur" ∧ r.pkg = r.name ∧ r.installed = inst r.name) ∧
    (∀ inst line p0 p1, pyStrip line ≠ "" → pyStartsWith " " line = false →
      pySplitSpace2 line = [p0, p1] →
      parseAurSearch inst [line] =
        [⟨(if p0 = "aur/" then p1 else p0), (if p0 = "aur/" then p1 else p0),
          (if p0 = "aur/" then p1 else ""), "", "aur",
          inst (if p0 = "aur/" then p1 else p0)⟩]) ∧
    (∀ inst line p0 p1 p2, pyStrip line ≠ "" → pyStartsWith " " line = false →
      pySplitSpace2 line = [p0, p1, p2] →
      parseAurSearch inst [line] =
        [⟨(if p0 = "aur/" then p1 else p0), (if p0 = "aur/" then p1 else p0),
          (if p0 = "aur/" then p1 else ""), p2, "aur",
          inst (if p0 = "aur/" then p1 else p0)⟩]) := by
  refine ⟨?_, ?_, ?_⟩
  · intro inst lines
    induction lines with
    | nil => intro r hr; simp [parseAurSearch] at hr
    | cons l rest ih =>
      intro r hr
      rw [parseAurSearch, List.filterMap_cons] at hr
      cases ha : aurLine inst l with
      | none =>
        rw [ha] at hr
        exact ih r hr
      | some rec =>
        rw [ha] at hr
        rcases List.mem_cons.mp hr with hr | hr
        · subst hr
          unfold aurLine at ha
          split_ifs at ha
          rcases hs : pySplitSpace2 l with _ | ⟨p0, _ | ⟨p1, rest2⟩⟩ <;>
            rw [hs] at ha <;> simp only [Option.some.injEq, reduceCtorEq] at ha
          subst ha
          exact ⟨rfl, rfl, rfl⟩
        · exact ih r hr
  · intro inst line p0 p1 h1 h2 h3
    simp [parseAurSearch, aurLine, h1, h2, h3]
  · intro inst line p0 p1 p2 h1 h2 h3
    simp [parseAurSearch, aurLine, h1, h2, h3]

/-- Witness for C7: a prefixed and an unprefixed concrete line. -/
theorem parseAurSearch_spec_witness :
    ((⟨"aur/vim", "aur/vim", "", "a modern editor", "aur", false⟩ : PackageRecord).repository
        = "aur" ∧
      (⟨"aur/vim", "aur/vim", "", "a modern editor", "aur", false⟩ : PackageRecord).pkg
        = (⟨"aur/vim", "aur/vim", "", "a modern editor", "aur", false⟩ : PackageRecord).name ∧
      (⟨"aur/vim", "aur/vim", "", "a modern editor", "aur", false⟩ : PackageRecord).installed
        = (fun _ => false) (⟨"aur/vim", "aur/vim", "", "a modern editor", "aur", false⟩ : PackageRecord).name) ∧
    parseAurSearch (fun _ => false) ["aur/vim 9.1-1 a modern editor"] =
      [⟨(if ("aur/vim" : String) = "aur/" then "9.1-1" else "aur/vim"),
        (if ("aur/vim" : String) = "aur/" then "9.1-1" else "aur/vim"),
        (if ("aur/vim" : String) = "aur/" then "9.1-1" else ""),
        "a modern editor", "aur",
        (fun _ => false) (if ("aur/vim" : String) = "aur/" then "9.1-1" else "aur/vim")⟩] :=
  ⟨parseAurSearch_spec.1 (fun _ => false) ["aur/vim 9.1-1 a modern editor"] _ (by decide),
   parseAurSearch_spec.2.2 (fun _ => false) "aur/vim 9.1-1 a modern editor"
     "aur/vim" "9.1-1" "a modern editor" (by decide) (by decide) (by decide)⟩

/-- Claim C1 counterexample: an indented line is stripped and still yields
a record (so the record count is not one per non-indented line), and for a
name with two slashes the produced pkg is the part after the LAST slash,
not after the first as the claim asserts. -/
theorem parsePacmanSearch_claim_counterexample :
    (parsePacmanSearch (fun _ => false) ["    x/y/z 1.0"]).map
      (fun r => (r.name, r.pkg)) = [("x/y/z", "z")] ∧
    claimAfterFirstSlash "x/y/z" = "y/z" ∧
    ("z" : String) ≠ "y/z" ∧
    (["    x/y/z 1.0"].filter (fun l => !pyStartsWith " " l)).length = 0 := by
  decide

/-- Claim C1 (corrected): the official-search parser produces one record
per line whose stripped content is non-empty and splits in two at a first
space and which is not consumed as a description (indented lines can also
start records); in each record, repository equals the substring before the
first slash (unknown when there is none), pkg equals the substring after
the LAST slash, version is the remainder of the stripped line after its
first space; a following line starting with four spaces is consumed as the
description; the core/vim scenario holds as stated. -/
theorem parsePacmanSearch_record_spec :
    (∀ inst lines r, r ∈ parsePacmanSearch inst lines →
      r.repository = (if hasSlash r.name then beforeFirstSlash r.name else "unknown") ∧
      r.pkg = afterLastSlash r.name ∧ r.installed = inst r.pkg) ∧
    (∀ inst line next rest nm ver, pacmanHead line = some (nm, ver) →
      pyStartsWith "    " next = true →
      parsePacmanSearch inst (line :: next :: rest) =
        mkPacmanRecord inst nm ver (pyStrip next) :: parsePacmanSearch inst rest) ∧
    parsePacmanSearch (fun _ => false) ["core/vim 2:9.1.0-1"] =
      [⟨"core/vim", "vim", "2:9.1.0-1", "", "core", false⟩] := by
  refine ⟨?_, ?_, by decide⟩
  · intro inst lines
    induction lines using parsePacmanSearch.induct inst with
    | case1 => intro r hr; simp [parsePacmanSearch] at hr
    | case2 line h => intro r hr; simp [parsePacmanSearch, h] at hr
    | case3 line nm ver h =>
      intro r hr
      simp only [parsePacmanSearch, h, List.mem_singleton] at hr
      subst hr
      exact ⟨rfl, rfl, rfl⟩
    | case4 line next rest2 h ih =>
      intro r hr
      simp only [parsePacmanSearch, h] at hr
      exact ih r hr
    | case5 line next rest2 nm ver h hsw ih =>
      intro r hr
      simp only [parsePacmanSearch, h, hsw, if_true] at hr
      rcases List.mem_cons.mp hr with hr | hr
      · subst hr
        exact ⟨rfl, rfl, rfl⟩
      · exact ih r hr
    | case6 line next rest2 nm ver h hsw ih =>
      intro r hr
      simp only [parsePacmanSearch, h, hsw, if_false] at hr
      rcases List.mem_cons.mp hr with hr | hr
      · subst hr
        exact ⟨rfl, rfl, rfl⟩
      · exact ih r hr
  · intro inst line next rest nm ver h hsw
    simp [parsePacmanSearch, h, hsw]

/-- Witness for C1: the record invariant at a concrete member, and the
description-consumption equation at a concrete block. -/
theorem parsePacmanSearch_record_spec_witness :
    ((⟨"core/vim", "vim", "2:9.1.0-1", "", "core", false⟩ : PackageRecord).repository =
        (if hasSlash "core/vim" then beforeFirstSlash "core/vim" else "unknown") ∧
      (⟨"core/vim", "vim", "2:9.1.0-1", "", "core", false⟩ : PackageRecord).pkg =
        afterLastSlash "core/vim" ∧
      (⟨"core/vim", "vim", "2:9.1.0-1", "", "core", false⟩ : PackageRecord).installed =
        (fun _ => false) "vim") ∧
    parsePacmanSearch (fun _ => false) ["extra/git 2.47.0-1", "    fast distributed vcs", "extra/gdb 15.2-1"] =
      mkPacmanRecord (fun _ => false) "extra/git" "2.47.0-1" (pyStrip "    fast distributed vcs") ::
        parsePacmanSearch (fun _ => false) ["extra/gdb 15.2-1"] :=
  ⟨parsePacmanSearch_record_spec.1 (fun _ => false) ["core/vim 2:9.1.0-1"] _ (by decide),
   parsePacmanSearch_record_spec.2.1 (fun _ => false) "extra/git 2.47.0-1"
     "    fast distributed vcs" ["extra/gdb 15.2-1"] "extra/git" "2.47.0-1"
     (by decide) (by decide)⟩

/-- Claim C4 counterexample: a run whose output lines hint installing (75)
then loading (40) emits the progress sequence 10, 75, 40, 100, which is not
monotonically non-decreasing even after removing the final forced 100. -/
theorem packageOpWorker_progress_counterexample :
    progressValues (packageOpWorkerRun
        (fun _ => Except.ok (["installing a\n", "loading b\n"], 0))
        "install" ["pacman", "-S", "a"] none) = [10, 75, 40, 100] ∧
    nondecreasing [10, 75, 40] = false := by
  decide

/-- Claim C4 (corrected): the progress values a worker run emits are 10,
then per-line heuristic hints from the set 40, 50, 60, 75 in line order
(not necessarily monotone), then a final forced 100; the trace ends with
progress 100 followed by exactly one done callback, which reports success
with a capitalized completion message when the exit code is 0 and failure
with the exit code embedded in the message otherwise. -/
theorem packageOpWorker_trace_spec :
    ∀ (spawn : ProcessOracle) (op : String) (cmd : List String) (pw : Option String),
      doneEvents (packageOpWorkerRun spawn op cmd pw) =
        [if (runCommandStreamEvents spawn cmd pw).2 = 0 then
            (true, pyCapitalize op ++ " completed successfully!")
          else
            (false, pyCapitalize op ++ " failed with code " ++
              toString (runCommandStreamEvents spawn cmd pw).2)] ∧
      (∃ front, packageOpWorkerRun spawn op cmd pw =
        front ++ [OpEvent.progress 100,
          doneEvent op (runCommandStreamEvents spawn cmd pw).2]) ∧
      (∀ v ∈ progressValues (packageOpWorkerRun spawn op cmd pw),
        v = 10 ∨ v = 40 ∨ v = 50 ∨ v = 60 ∨ v = 75 ∨ v = 100) := by
  intro spawn op cmd pw
  refine ⟨?_, ?_, ?_⟩
  · rw [packageOpWorkerRun, doneEvents_append, doneEvents_cons_status,
      doneEvents_cons_progress, doneEvents_stream]
    by_cases h : (runCommandStreamEvents spawn cmd pw).2 = 0 <;>
      simp [doneEvent, h, doneEvents_cons_progress, doneEvents_cons_done, doneEvents]
  · refine ⟨OpEvent.status ("Starting " ++ op ++ "...") :: OpEvent.progress 10 ::
      (runCommandStreamEvents spawn cmd pw).1, ?_⟩
    rw [packageOpWorkerRun]
  · intro v hv
    rw [packageOpWorkerRun, progressValues_append, progressValues_cons_status,
      progressValues_cons_progress, progressValues_tail_done, List.cons_append] at hv
    rcases List.mem_cons.mp hv with hv | hv
    · exact Or.inl hv
    · rcases List.mem_append.mp hv with hv | hv
      · rcases progressValues_stream hv with h | h | h | h
        · exact Or.inr (Or.inr (Or.inl h))
        · exact Or.inr (Or.inr (Or.inr (Or.inr (Or.inl h))))
        · exact Or.inr (Or.inr (Or.inr (Or.inl h)))
        · exact Or.inr (Or.inl h)
      · rcases List.mem_singleton.mp hv with h
        exact Or.inr (Or.inr (Or.inr (Or.inr (Or.inr h))))

/-- Witness for C4 at a concrete successful run. -/
theorem packageOpWorker_trace_spec_witness :
    doneEvents (packageOpWorkerRun (fun _ => Except.ok (["downloading x\n"], 0))
        "install" ["pacman"] none) =
      [if (runCommandStreamEvents (fun _ => Except.ok (["downloading x\n"], 0))
          ["pacman"] none).2 = 0 then
          (true, pyCapitalize "install" ++ " completed successfully!")
        else
          (false, pyCapitalize "install" ++ " failed with code " ++
            toString (runCommandStreamEvents (fun _ => Except.ok (["downloading x\n"], 0))
              ["pacman"] none).2)] ∧
    (50 = 10 ∨ 50 = 40 ∨ 50 = 50 ∨ 50 = 60 ∨ 50 = 75 ∨ 50 = 100) :=
  ⟨(packageOpWorker_trace_spec (fun _ => Except.ok (["downloading x\n"], 0))
      "install" ["pacman"] none).1,
   (packageOpWorker_trace_spec (fun _ => Except.ok (["downloading x\n"], 0))
      "install" ["pacman"] none).2.2 50 (by decide)⟩

/-- Claim C2 counterexample: with argv cat x and credential x, the
credential occurs twice, not once, in the constructed privilege-escalation
invocation (once in the injected template slot and once because the
caller-supplied argv already contains it). -/
theorem runCommandStream_credential_counterexample :
    buildCommand ["cat", "x"] (some "x") =
      ["bash", "-lc", "echo " ++ squote ++ "x" ++ squote ++ " | sudo -S cat x"] ∧
    ((buildCommand ["cat", "x"] (some "x")).map (countOccurStr "x")).sum = 2 := by
  decide

/-- Claim C2 (corrected): for a non-empty credential and an argv not
starting with sudo, the constructed invocation is exactly bash -lc with the
fixed template embedding the credential at one slot, so the wrap adds
exactly one occurrence (further occurrences can only come from the argv or
from template-text overlap); and the runner itself never introduces the
credential into an onLine line: every streamed line is the rstrip of a
process output line, so when no process output line contains the
credential, no onLine line does either. -/
theorem runCommandStream_credential_spec :
    (∀ (cmd : List String) (pw : String), pw ≠ "" → cmd.head? ≠ some "sudo" →
      buildCommand cmd (some pw) = ["bash", "-lc", sudoWrapString pw cmd]) ∧
    (∀ (spawn : ProcessOracle) (cmd : List String) (pw : String)
        (out : List String) (code : Nat),
      spawn (buildCommand cmd (some pw)) = Except.ok (out, code) →
      (∀ l ∈ out, pyContains l pw = false) →
      ∀ l ∈ (runCommandStream spawn cmd (some pw)).1, pyContains l pw = false) := by
  constructor
  · intro cmd pw h1 h2
    rw [buildCommand, if_pos ⟨h1, Or.inr h2⟩]
  · intro spawn cmd pw out code hs hnoleak l hl
    unfold runCommandStream at hl
    rw [hs] at hl
    simp only [List.mem_map] at hl
    obtain ⟨raw, hraw, hrl⟩ := hl
    have hrawout : raw ∈ out := List.mem_of_mem_filter hraw
    subst hrl
    cases hb : pyContains (pyRstrip raw) pw with
    | false => rfl
    | true =>
      have hc := pyContains_rstrip hb
      rw [hnoleak raw hrawout] at hc
      exact Bool.noConfusion hc

/-- Witness for C2 at a concrete command, credential and process. -/
theorem runCommandStream_credential_spec_witness :
    buildCommand ["pacman", "-S", "vim"] (some "hunter2") =
      ["bash", "-lc", sudoWrapString "hunter2" ["pacman", "-S", "vim"]] ∧
    pyContains "resolving dependencies..." "hunter2" = false :=
  ⟨runCommandStream_credential_spec.1 ["pacman", "-S", "vim"] "hunter2"
      (by decide) (by decide),
   runCommandStream_credential_spec.2
     (fun _ => Except.ok (["resolving dependencies...\n"], 0))
     ["pacman", "-S", "vim"] "hunter2" ["resolving dependencies...\n"] 0 rfl
     (by decide) "resolving dependencies..." (by decide)⟩

/-- Claim C3 (confirmed): in every reachable state at most one
package-operation worker is active; a request while one is alive is
rejected synchronously with the operation-in-progress warning and changes
nothing else (worker, output buffer, progress and status are untouched);
and once the running worker has finished and its done callback has fired,
the next request is accepted.  The model identifies worker-thread death
with the delivery of its done callback, which is the last action the
worker schedules. -/
theorem singleOperation_gate :
    (∀ s, OpReachable s → s.activeWorkers ≤ 1) ∧
    (∀ s label, 0 < s.activeWorkers →
      runPackageOperation s label =
        ({ s with warnings := s.warnings ++ ["Operation in Progress"] }, false)) ∧
    (∀ s label, s.activeWorkers = 1 →
      (runPackageOperation (onOperationFinished s) label).2 = true) := by
  refine ⟨?_, ?_, ?_⟩
  · intro s h
    induction h with
    | refl => decide
    | tail hsteps hstep ih =>
      cases hstep with
      | request label =>
        unfold runPackageOperation
        split
        · simpa using ih
        · simp
          omega
      | finish h2 =>
        simp [onOperationFinished]
        omega
  · intro s label h
    unfold runPackageOperation
    rw [if_pos h]
  · intro s label h
    unfold runPackageOperation onOperationFinished
    simp [h]

/-- Witness for C3: the invariant at the initial state, the rejection at a
concrete busy state, and acceptance after the finish of that state. -/
theorem singleOperation_gate_witness :
    initOpState.activeWorkers ≤ 1 ∧
    runPackageOperation ⟨1, ["out"], 50, "Working", []⟩ "install" =
      (⟨1, ["out"], 50, "Working", ["Operation in Progress"]⟩, false) ∧
    (runPackageOperation (onOperationFinished ⟨1, ["out"], 100, "Working", []⟩)
      "install").2 = true :=
  ⟨singleOperation_gate.1 initOpState Relation.ReflTransGen.refl,
   singleOperation_gate.2.1 ⟨1, ["out"], 50, "Working", []⟩ "install" (by decide),
   singleOperation_gate.2.2 ⟨1, ["out"], 100, "Working", []⟩ "install" rfl⟩

/-- Claim C5 (confirmed): the details resolver is idempotent over its
cache key: with the environment unchanged, a second call with the same
(name, source, includeDependencies) returns the same result as the first,
spawns zero external processes, and leaves the cache unchanged. -/
theorem getPackageDetails_idempotent :
    ∀ env c name repo wd,
      (getPackageDetails env (getPackageDetails env c name repo wd).2.1 name repo wd).1 =
        (getPackageDetails env c name repo wd).1 ∧
      (getPackageDetails env (getPackageDetails env c name repo wd).2.1 name repo wd).2.2 = 0 ∧
      (getPackageDetails env (getPackageDetails env c name repo wd).2.1 name repo wd).2.1 =
        (getPackageDetails env c name repo wd).2.1 := by
  intro env c name repo wd
  cases hf : cacheFind c (cacheKey name repo wd) with
  | some v =>
    simp [getPackageDetails_hit hf]
  | none =>
    have h2 : cacheFind (evictIfNeeded (c ++ [(cacheKey name repo wd,
        (computeDetails env name repo wd).1)])) (cacheKey name repo wd) =
        some (computeDetails env name repo wd).1 := cacheFind_evict_insert hf
    simp [getPackageDetails_miss hf, getPackageDetails_hit h2]

/-- Claim C6 (confirmed): at the return of every details resolution the
cache holds at most 200 entries (so every cache reachable from the empty
one by any sequence of resolutions stays within the bound, exceeding it
only by the one pending insertion mid-call); and whenever the insertion
pushes the size past 200, exactly the batch of the first 50 keys in
insertion order is evicted. -/
theorem detailsCache_bound :
    (∀ env c name repo wd, c.length ≤ 200 →
      (getPackageDetails env c name repo wd).2.1.length ≤ 200) ∧
    (∀ env calls, (runDetailsCalls env calls []).length ≤ 200) ∧
    (∀ env c name repo wd,
      cacheFind c (cacheKey name repo wd) = none → 200 < c.length + 1 →
      (getPackageDetails env c name repo wd).2.1 =
        (c ++ [(cacheKey name repo wd, (computeDetails env name repo wd).1)]).drop 50) := by
  have step : ∀ (env : DetailsEnv) (c : DetailsCache) (name repo : String) (wd : Bool),
      c.length ≤ 200 → (getPackageDetails env c name repo wd).2.1.length ≤ 200 := by
    intro env c name repo wd h
    cases hf : cacheFind c (cacheKey name repo wd) with
    | some v =>
      rw [getPackageDetails_hit hf]
      exact h
    | none =>
      rw [getPackageDetails_miss hf]
      show (evictIfNeeded _).length ≤ 200
      unfold evictIfNeeded
      by_cases hl : 200 < (c ++ [(cacheKey name repo wd,
          (computeDetails env name repo wd).1)]).length
      · rw [if_pos hl]
        simp only [List.length_drop, List.length_append, List.length_cons,
          List.length_nil]
        omega
      · rw [if_neg hl]
        simp only [List.length_append, List.length_cons, List.length_nil] at hl ⊢
        omega
  refine ⟨step, ?_, ?_⟩
  · intro env calls
    have gen : ∀ (cs : List (String × String × Bool)) (c : DetailsCache),
        c.length ≤ 200 → (runDetailsCalls env cs c).length ≤ 200 := by
      intro cs
      induction cs with
      | nil => intro c h; exact h
      | cons q rest ih =>
        intro c h
        obtain ⟨n, r, w⟩ := q
        exact ih _ (step env c n r w h)
    exact gen calls [] (by simp)
  · intro env c n r w hf hlen
    rw [getPackageDetails_miss hf]
    show evictIfNeeded _ = _
    unfold evictIfNeeded
    rw [if_pos (by simp only [List.length_append, List.length_cons, List.length_nil]; omega)]

/-- Witness for C6: the bound at an empty cache and one call, and the
batch eviction at a concrete full cache of 200 entries. -/
theorem detailsCache_bound_witness :
    (getPackageDetails ⟨fun _ => none, fun _ => none, fun _ => none,
        fun _ => none, fun _ => none⟩ [] "vim" "core" false).2.1.length ≤ 200 ∧
    (runDetailsCalls ⟨fun _ => none, fun _ => none, fun _ => none,
        fun _ => none, fun _ => none⟩ [("vim", "core", false)] []).length ≤ 200 ∧
    (getPackageDetails ⟨fun _ => none, fun _ => none, fun _ => none,
        fun _ => none, fun _ => none⟩
        ((List.range 200).map (fun i => (toString i, defaultInfo "p" "q")))
        "vim" "core" false).2.1 =
      (((List.range 200).map (fun i => (toString i, defaultInfo "p" "q"))) ++
        [(cacheKey "vim" "core" false,
          (computeDetails ⟨fun _ => none, fun _ => none, fun _ => none,
            fun _ => none, fun _ => none⟩ "vim" "core" false).1)]).drop 50 :=
  ⟨detailsCache_bound.1 _ [] "vim" "core" false (by decide),
   detailsCache_bound.2.1 _ [("vim", "core", false)],
   detailsCache_bound.2.2 _ _ "vim" "core" false (by decide) (by decide)⟩

/-- Claim C9 (confirmed): on a cache miss the freshly computed entry is
present in the cache when the call returns; the eviction batch, when
triggered, is the first 50 keys of the pre-eviction insertion order, and
the key inserted by the triggering call is never among them. -/
theorem detailsCache_insert_present :
    ∀ env c name repo wd,
      cacheFind c (cacheKey name repo wd) = none →
      cacheFind (getPackageDetails env c name repo wd).2.1 (cacheKey name repo wd) =
        some (getPackageDetails env c name repo wd).1 ∧
      (200 < (c ++ [(cacheKey name repo wd,
          (getPackageDetails env c name repo wd).1)]).length →
        (cacheKey name repo wd) ∉
          ((c ++ [(cacheKey name repo wd,
            (getPackageDetails env c name repo wd).1)]).take 50).map Prod.fst) := by
  intro env c name repo wd hf
  rw [getPackageDetails_miss hf]
  constructor
  · exact cacheFind_evict_insert hf
  · intro hlen hmem
    have hc : 50 ≤ c.length := by
      simp only [List.length_append, List.length_cons, List.length_nil] at hlen
      omega
    rw [List.take_append_of_le_length hc] at hmem
    rw [List.mem_map] at hmem
    obtain ⟨p, hp, hpk⟩ := hmem
    exact (cacheFind_eq_none_iff.mp hf p (List.take_subset 50 c hp)) hpk

/-- Witness for C9 at an empty cache. -/
theorem detailsCache_insert_present_witness :
    cacheFind (getPackageDetails ⟨fun _ => none, fun _ => none, fun _ => none,
        fun _ => none, fun _ => none⟩ [] "vim" "core" false).2.1
      (cacheKey "vim" "core" false) =
    some (getPackageDetails ⟨fun _ => none, fun _ => none, fun _ => none,
        fun _ => none, fun _ => none⟩ [] "vim" "core" false).1 :=
  (detailsCache_insert_present _ [] "vim" "core" false rfl).1

end PkgerG
